import Mathlib

/-!
Verification development for the VCard generator (src/main.rs).

The program converts a comma-separated contacts file into a VCard 2.1
file.  This file gives a shallow embedding of its pure core:

* `make_vcard`          — the card formatter (src/main.rs, `make_vcard`);
* `extract_vcard_data`  — the record mapper (src/main.rs, `extract_vcard_data`);
* `read_csv_lines`      — the line reader on file contents (src/main.rs,
  `read_csv_lines`, with the I/O part factored out: the file contents are
  passed as a string);
* `build_output_path`   — the path deriver (src/main.rs, `build_output_path`),
  over a model of the Rust `std::path` operations for Unix-style paths;
* `process_csv_text` / `process_csv` — the pipeline (src/main.rs,
  `process_csv`), the latter over an explicit file-system state.

Strings are handled through their underlying character lists so that all
definitions are executable and kernel-reducible.
-/

set_option autoImplicit false

namespace VCardGen

/-! ### Character-list splitting and joining

`splitOnChar c l` models Rust `str::split(c)` applied to the characters of a
string: the resulting pieces never contain `c`, there is always at least one
piece, and interleaving the pieces with `c` restores the input.
-/

/-- Prepends a character onto the first piece of a piece list (helper for
`splitOnChar`). -/
def consHead (x : Char) : List (List Char) → List (List Char)
  | [] => [[x]]
  | h :: t => (x :: h) :: t

/-- Splits a character list on a separator character; models Rust
`str::split(c)` over the characters of a string. -/
def splitOnChar (c : Char) : List Char → List (List Char)
  | [] => [[]]
  | x :: xs => if x = c then [] :: splitOnChar c xs else consHead x (splitOnChar c xs)

/-- Joins pieces with a separator character; inverse of `splitOnChar`. -/
def joinWithChar (c : Char) : List (List Char) → List Char
  | [] => []
  | [p] => p
  | p :: q :: ps => p ++ c :: joinWithChar c (q :: ps)

/-! ### Model of Rust `str::lines`

Rust `str::lines` splits at `\n`, strips one trailing `\r` from each line
(so `\r\n` endings are handled), and drops a final empty piece (the final
line terminator is optional).
-/

/-- Strips a single trailing carriage return from a line, as Rust
`str::lines` does. -/
def stripTrailingCR (l : List Char) : List Char :=
  if l.getLast? = some '\r' then l.dropLast else l

/-- The lines of a string, as Rust `str::lines` produces them. -/
def linesOf (s : String) : List String :=
  let ps := splitOnChar '\n' s.data
  let ps := if ps.getLast? = some [] then ps.dropLast else ps
  ps.map (fun l => String.mk (stripTrailingCR l))

/-! ### The card formatter and record mapper (src/main.rs) -/

/-- `make_vcard` (src/main.rs): builds the card text by ten successive
`writeln!` calls, each appending one tag line and a newline. -/
def make_vcard (first_name last_name tel mobile email note : String) : String :=
  let vcard := ""
  let vcard := vcard ++ ("BEGIN:VCARD" ++ "\n")
  let vcard := vcard ++ ("VERSION:2.1" ++ "\n")
  let vcard := vcard ++ ("N:" ++ last_name ++ ";" ++ first_name ++ "\n")
  let vcard := vcard ++ ("FN:" ++ first_name ++ " " ++ last_name ++ "\n")
  let vcard := vcard ++ ("EMAIL;PREF;INTERNET:" ++ email ++ "\n")
  let vcard := vcard ++ ("TEL;HOME;VOICE:" ++ tel ++ "\n")
  let vcard := vcard ++ ("TEL;HOME;VOICE:" ++ mobile ++ "\n")
  let vcard := vcard ++ ("NOTE:" ++ note ++ "\n")
  let vcard := vcard ++ ("REV:1" ++ "\n")
  let vcard := vcard ++ ("END:VCARD" ++ "\n")
  vcard

/-- `extract_vcard_data` (src/main.rs): fallible on a missing first field
(`get(0)` with `ok_or_else`), all later fields default to the empty string
(`unwrap_or("")`).  The `println!` debug output has no bearing on the
result and is not modelled. -/
def extract_vcard_data (vcard_data : List String) : Except String String :=
  match vcard_data.get? 0 with
  | none => .error "Invalid input, needs at least one field for first name"
  | some first =>
    let last := vcard_data.getD 1 ""
    let tel := vcard_data.getD 2 ""
    let mobile := vcard_data.getD 3 ""
    let email := vcard_data.getD 4 ""
    let note := vcard_data.getD 5 ""
    .ok (make_vcard first last tel mobile email note)

/-! ### The line reader (src/main.rs, `read_csv_lines`)

The file-opening and reading part is factored out: the reader below works on
the file contents, which the surrounding `read_csv_file` obtains from an
explicit file-system state.
-/

/-- The loop body of `read_csv_lines`: enumerated lines, the line at index 0
is skipped, every other line is split on the comma and pushed unless the
split is a single empty field. -/
def read_csv_go : Nat → List String → List (List String)
  | _, [] => []
  | i, line :: rest =>
    if i = 0 then read_csv_go (i + 1) rest
    else
      let split_values := (splitOnChar ',' line.data).map String.mk
      if split_values.length = 1 ∧ split_values.getD 0 "" = "" then
        read_csv_go (i + 1) rest
      else split_values :: read_csv_go (i + 1) rest

/-- `read_csv_lines` (src/main.rs) applied to the contents of the file. -/
def read_csv_lines (contents : String) : List (List String) :=
  read_csv_go 0 (linesOf contents)

/-! ### Model of the Rust `std::path` operations (Unix paths)

`build_output_path` uses `Path::parent`, `Path::file_stem`, `PathBuf::push`
and `PathBuf::set_extension`.  These are modelled on strings through the
`/`-separated pieces of the path.  A piece is a *component* when it is
non-empty and is not `"."` — except that a leading `"."` piece of a relative
path is the `CurDir` component.  Trailing non-component pieces are trimmed
when a path is rebuilt, exactly as `Components::as_path` does.
-/

/-- Finds the last component among the pieces at positions `≥ 1` of a path,
returning the pieces before it and the component itself.  Pieces after the
component (empty or `"."`) are dropped, as `as_path` trims them. -/
def lastCompAux : List (List Char) → Option (List (List Char) × List Char)
  | [] => none
  | q :: rest =>
    match lastCompAux rest with
    | some (pre, comp) => some (q :: pre, comp)
    | none => if q ≠ [] ∧ q ≠ ['.'] then some ([], q) else none

/-- Finds the last component of a full piece list.  At position 0 any
non-empty piece is a component (a leading `"."` is the `CurDir`
component; a leading empty piece marks an absolute path and is the root,
not a component). -/
def lastCompOf : List (List Char) → Option (List (List Char) × List Char)
  | [] => none
  | q :: rest =>
    match lastCompAux rest with
    | some (pre, comp) => some (q :: pre, comp)
    | none => if q ≠ [] then some ([], q) else none

/-- The pieces of a path string. -/
def piecesOf (p : String) : List (List Char) :=
  splitOnChar '/' p.data

/-- Rust `Path::file_name`: the last component, unless it is `..` or the
`CurDir` component. -/
def fileName (p : String) : Option String :=
  match lastCompOf (piecesOf p) with
  | none => none
  | some (_, comp) =>
    if comp = ['.', '.'] ∨ comp = ['.'] then none else some (String.mk comp)

/-- The stem of a file name, as Rust `Path::file_stem` computes it from the
file name: the part before the last dot, the whole name when there is no
dot or when the only dot is leading, and `..` is kept whole. -/
def stemChars (n : List Char) : List Char :=
  if n = ['.', '.'] then n
  else
    let parts := splitOnChar '.' n
    if parts.length ≤ 1 then n
    else
      let before := joinWithChar '.' parts.dropLast
      if before = [] then n else before

/-- Rust `Path::file_stem`. -/
def fileStem (p : String) : Option String :=
  match fileName p with
  | none => none
  | some nm => some (String.mk (stemChars nm.data))

/-- Rust `Path::parent`: pops the last component and rebuilds the remaining
path; `none` when there is no component to pop.  When no component remains
the result is the root of an absolute path or the empty relative path. -/
def parentOf (p : String) : Option String :=
  match lastCompOf (piecesOf p) with
  | none => none
  | some (pre, _) =>
    match lastCompOf pre with
    | some (pre2, comp2) => some (String.mk (joinWithChar '/' (pre2 ++ [comp2])))
    | none =>
      if p.data.head? = some '/' then
        some (String.mk (p.data.takeWhile (fun ch => ch = '/')))
      else some ""

/-- Rust `PathBuf::push` for a relative single-component argument: appends a
separator when the buffer is non-empty and does not already end in one. -/
def pushPath (base : String) (s : String) : String :=
  if base = "" then s
  else if base.data.getLast? = some '/' then base ++ s
  else base ++ "/" ++ s

/-- Rust `PathBuf::set_extension`: a no-op when the path has no file name;
otherwise the path is truncated right after the stem of its last component
and `.` plus the extension is appended (nothing is appended for an empty
extension). -/
def setExtension (q : String) (ext : String) : String :=
  match lastCompOf (piecesOf q) with
  | none => q
  | some (pre, comp) =>
    if comp = ['.', '.'] ∨ comp = ['.'] then q
    else
      String.mk (joinWithChar '/'
        (pre ++ [stemChars comp ++ (if ext = "" then [] else '.' :: ext.data)]))

/-- `build_output_path` (src/main.rs): parent (defaulting to `"."`), stem
(erroring when absent), push, set_extension. -/
def build_output_path (input_path : String) (output_extension : String) :
    Except String String :=
  let input_parent := (parentOf input_path).getD "."
  match fileStem input_path with
  | none => .error "Input path has no file name"
  | some csv_file_prefix =>
    .ok (setExtension (pushPath input_parent csv_file_prefix) output_extension)

/-! ### The writer and the pipeline (src/main.rs) -/

/-- The file-system state: contents by path. -/
def FileSys : Type := String → Option String

/-- `write_file` (src/main.rs): `File::create` truncates any pre-existing
file, then all bytes are written, so the new state holds exactly `data` at
`filename` regardless of what was there before. -/
def write_file (filename : String) (data : String) (fs : FileSys) : FileSys :=
  fun p => if p = filename then some data else fs p

/-- The file-opening and reading part of `read_csv_lines` (src/main.rs):
fails when the file cannot be read. -/
def read_csv_file (filename : String) (fs : FileSys) :
    Except String (List (List String)) :=
  match fs filename with
  | none => .error "cannot open file"
  | some contents => .ok (read_csv_lines contents)

/-- `lines.iter().map(extract_vcard_data).collect::<io::Result<Vec<String>>>()`
(src/main.rs, `process_csv`): in-order collection, stopping at the first
error. -/
def collect_results : List (List String) → Except String (List String)
  | [] => .ok []
  | row :: rest =>
    match extract_vcard_data row with
    | .error e => .error e
    | .ok card =>
      match collect_results rest with
      | .error e => .error e
      | .ok cards => .ok (card :: cards)

/-- Rust `Vec::join(sep)`. -/
def join_with (sep : String) : List String → String
  | [] => ""
  | [c] => c
  | c :: c2 :: cs => c ++ sep ++ join_with sep (c2 :: cs)

/-- The pure text transformation of `process_csv` (src/main.rs): contents
in, joined card text out. -/
def process_csv_text (contents : String) : Except String String :=
  match collect_results (read_csv_lines contents) with
  | .error e => .error e
  | .ok all_vcard => .ok (join_with "\n" all_vcard)

/-- `process_csv` (src/main.rs) over an explicit file-system state: read the
rows, derive the output path, format every row, write the join; each `?`
propagates the first error. -/
def process_csv (csv_filename : String) (fs : FileSys) : Except String FileSys :=
  match read_csv_file csv_filename fs with
  | .error e => .error e
  | .ok lines =>
    match build_output_path csv_filename "vcf" with
    | .error e => .error e
    | .ok vcf_filename =>
      match collect_results lines with
      | .error e => .error e
      | .ok all_vcard => .ok (write_file vcf_filename (join_with "\n" all_vcard) fs)

/-! ### Statement helpers -/

/-- Success of an `Except` result. -/
def exceptOk {ε α : Type} : Except ε α → Bool
  | .ok _ => true
  | .error _ => false

/-- Whether `pre` is a prefix of `l` (boolean, for concrete evaluation). -/
def isPrefixCL : List Char → List Char → Bool
  | [], _ => true
  | _ :: _, [] => false
  | a :: as, b :: bs => a = b && isPrefixCL as bs

/-- Whether `needle` occurs as a contiguous substring of `hay`. -/
def containsSub (needle : List Char) : List Char → Bool
  | [] => needle.isEmpty
  | b :: t => isPrefixCL needle (b :: t) || containsSub needle t

/-- Modelled from the spec (section 4.1), for the refinement claim about the
line reader: the first line is always discarded, every other non-empty line
is split on the comma, fully empty lines are skipped, order is kept. -/
def LineReaderSpec (contents : String) : List (List String) :=
  ((linesOf contents).drop 1).filterMap (fun line =>
    if line = "" then none
    else some ((splitOnChar ',' line.data).map String.mk))

theorem consHead_ne_nil (x : Char) (r : List (List Char)) : consHead x r ≠ [] := by
  cases r <;> simp [consHead]

theorem splitOnChar_ne_nil (c : Char) (l : List Char) : splitOnChar c l ≠ [] := by
  induction l with
  | nil => simp [splitOnChar]
  | cons x xs ih =>
    by_cases hx : x = c
    · simp [splitOnChar, hx]
    · simp only [splitOnChar, if_neg hx]
      exact consHead_ne_nil x _

theorem consHead_append (x : Char) (r s : List (List Char)) (h : r ≠ []) :
    consHead x (r ++ s) = consHead x r ++ s := by
  cases r with
  | nil => exact absurd rfl h
  | cons h t => simp [consHead]

/-- Splitting distributes over a separator occurrence. -/
theorem splitOnChar_append (c : Char) (a b : List Char) :
    splitOnChar c (a ++ c :: b) = splitOnChar c a ++ splitOnChar c b := by
  induction a with
  | nil => simp [splitOnChar]
  | cons x xs ih =>
    by_cases hx : x = c
    · simp [splitOnChar, hx, ih]
    · show splitOnChar c (x :: (xs ++ c :: b)) = splitOnChar c (x :: xs) ++ splitOnChar c b
      rw [splitOnChar, splitOnChar, if_neg hx, if_neg hx, ih,
        consHead_append x _ _ (splitOnChar_ne_nil c xs)]

/-- A separator-free list splits into a single piece. -/
theorem splitOnChar_eq_single (c : Char) (l : List Char) (h : c ∉ l) :
    splitOnChar c l = [l] := by
  induction l with
  | nil => rfl
  | cons x xs ih =>
    have hx : x ≠ c := fun hxc => h (hxc ▸ List.mem_cons_self x xs)
    have hxs : c ∉ xs := fun hm => h (List.mem_cons_of_mem x hm)
    simp [splitOnChar, if_neg hx, ih hxs, consHead]

/-- No piece of a split contains the separator. -/
theorem splitOnChar_not_mem (c : Char) (l : List Char) :
    ∀ p ∈ splitOnChar c l, c ∉ p := by
  induction l with
  | nil => intro p hp; simp [splitOnChar] at hp; simp [hp]
  | cons x xs ih =>
    intro p hp
    by_cases hx : x = c
    · simp only [splitOnChar, if_pos hx] at hp
      rcases List.mem_cons.mp hp with hp | hp
      · simp [hp]
      · exact ih p hp
    · simp only [splitOnChar, if_neg hx] at hp
      rcases hr : splitOnChar c xs with _ | ⟨h0, t0⟩
      · exact absurd hr (splitOnChar_ne_nil c xs)
      · rw [hr, consHead] at hp
        rcases List.mem_cons.mp hp with hp | hp
        · subst hp
          intro hc
          rcases List.mem_cons.mp hc with hc | hc
          · exact hx hc.symm
          · exact ih h0 (hr ▸ List.mem_cons_self h0 t0) hc
        · exact ih p (hr ▸ List.mem_cons_of_mem h0 hp)

/-- Splitting a list containing the separator yields at least two pieces. -/
theorem two_le_splitOnChar_length (c : Char) (l : List Char) (h : c ∈ l) :
    2 ≤ (splitOnChar c l).length := by
  induction l with
  | nil => cases h
  | cons x xs ih =>
    by_cases hx : x = c
    · have h1 : 1 ≤ (splitOnChar c xs).length :=
        List.length_pos.mpr (splitOnChar_ne_nil c xs)
      simp only [splitOnChar, if_pos hx, List.length_cons]
      omega
    · have hm : c ∈ xs := by
        rcases List.mem_cons.mp h with h | h
        · exact absurd h.symm hx
        · exact h
      have h2 := ih hm
      simp only [splitOnChar, if_neg hx]
      rcases hr : splitOnChar c xs with _ | ⟨h0, t0⟩
      · exact absurd hr (splitOnChar_ne_nil c xs)
      · rw [hr] at h2
        simpa [consHead] using h2

/-- Appending to the last piece: splitting `a ++ y` for separator-free `y`
extends the last piece of the split of `a`. -/
theorem splitOnChar_append_last (c : Char) (a y : List Char) (X : List (List Char))
    (z : List Char) (hXz : splitOnChar c a = X ++ [z]) (hy : c ∉ y) :
    splitOnChar c (a ++ y) = X ++ [z ++ y] := by
  induction a generalizing X z with
  | nil =>
    simp only [splitOnChar] at hXz
    rcases X with _ | ⟨x0, X'⟩
    · simp only [List.nil_append] at hXz
      injection hXz with h1 _
      subst h1
      simp [splitOnChar_eq_single c y hy]
    · injection hXz with h1 h2
      simp at h2
  | cons x xs ih =>
    by_cases hx : x = c
    · subst hx
      simp only [splitOnChar, if_pos rfl] at hXz
      rcases X with _ | ⟨x0, X'⟩
      · simp only [List.nil_append] at hXz
        injection hXz with h1 h2
        exact absurd h2 (by simpa using (splitOnChar_ne_nil x xs).symm ∘ Eq.symm)
      · injection hXz with h1 h2
        subst h1
        have hstep := ih X' z h2
        show splitOnChar x (x :: (xs ++ y)) = ([] :: X') ++ [z ++ y]
        rw [splitOnChar, if_pos rfl, hstep]
        rfl
    · simp only [splitOnChar, if_neg hx] at hXz
      rcases hr : splitOnChar c xs with _ | ⟨h0, t0⟩
      · exact absurd hr (splitOnChar_ne_nil c xs)
      · rw [hr, consHead] at hXz
        rcases t0 with _ | ⟨t1, ts⟩
        · rcases X with _ | ⟨x0, X'⟩
          · simp only [List.nil_append] at hXz
            injection hXz with h1 _
            subst h1
            have hxs : splitOnChar c xs = [] ++ [h0] := by simp [hr]
            have hstep := ih [] h0 hxs
            simp only [List.nil_append] at hstep ⊢
            show splitOnChar c (x :: (xs ++ y)) = [(x :: h0) ++ y]
            rw [splitOnChar, if_neg hx, hstep]
            rfl
          · injection hXz with h1 h2
            simp at h2
        · rcases X with _ | ⟨x0, X'⟩
          · simp only [List.nil_append] at hXz
            injection hXz with _ h2
            simp at h2
          · injection hXz with h1 h2
            subst h1
            have hxs : splitOnChar c xs = (h0 :: X') ++ [z] := by simp [hr, h2]
            have hstep := ih (h0 :: X') z hxs
            simp only [List.cons_append] at hstep
            show splitOnChar c (x :: (xs ++ y)) = ((x :: h0) :: X') ++ [z ++ y]
            rw [splitOnChar, if_neg hx, hstep]
            rfl

theorem joinWithChar_concat (c : Char) (X : List (List Char)) (y : List Char)
    (hX : X ≠ []) :
    joinWithChar c (X ++ [y]) = joinWithChar c X ++ c :: y := by
  induction X with
  | nil => exact absurd rfl hX
  | cons x0 X' ih =>
    rcases X' with _ | ⟨x1, X''⟩
    · rfl
    · have hstep := ih (List.cons_ne_nil x1 X'')
      calc joinWithChar c ((x0 :: x1 :: X'') ++ [y])
          = x0 ++ c :: joinWithChar c ((x1 :: X'') ++ [y]) := rfl
        _ = x0 ++ c :: (joinWithChar c (x1 :: X'') ++ c :: y) := by rw [hstep]
        _ = (x0 ++ c :: joinWithChar c (x1 :: X'')) ++ c :: y := by simp

theorem joinWithChar_last_append (c : Char) (X : List (List Char)) (y z : List Char) :
    joinWithChar c (X ++ [y ++ z]) = joinWithChar c (X ++ [y]) ++ z := by
  rcases X with _ | ⟨x0, X'⟩
  · rfl
  · rw [joinWithChar_concat c (x0 :: X') (y ++ z) (List.cons_ne_nil x0 X'),
      joinWithChar_concat c (x0 :: X') y (List.cons_ne_nil x0 X')]
    simp

/-- Joining undoes splitting. -/
theorem joinWithChar_splitOnChar (c : Char) (l : List Char) :
    joinWithChar c (splitOnChar c l) = l := by
  induction l with
  | nil => rfl
  | cons x xs ih =>
    by_cases hx : x = c
    · subst hx
      rw [splitOnChar, if_pos rfl]
      rcases hr : splitOnChar x xs with _ | ⟨h0, t0⟩
      · exact absurd hr (splitOnChar_ne_nil x xs)
      · rw [hr] at ih
        show [] ++ x :: joinWithChar x (h0 :: t0) = x :: xs
        rw [ih]
        rfl
    · rw [splitOnChar, if_neg hx]
      rcases hr : splitOnChar c xs with _ | ⟨h0, t0⟩
      · exact absurd hr (splitOnChar_ne_nil c xs)
      · rw [hr] at ih
        rcases t0 with _ | ⟨t1, ts⟩
        · show x :: h0 = x :: xs
          rw [show joinWithChar c [h0] = h0 from rfl] at ih
          rw [ih]
        · show (x :: h0) ++ c :: joinWithChar c (t1 :: ts) = x :: xs
          rw [show joinWithChar c (h0 :: t1 :: ts) = h0 ++ c :: joinWithChar c (t1 :: ts) from rfl] at ih
          simp only [List.cons_append]
          rw [ih]

/-! ### String helpers -/

theorem str_data_append (a b : String) : (a ++ b).data = a.data ++ b.data := by
  cases a
  cases b
  rfl

theorem str_eq_of_data (a b : String) (h : a.data = b.data) : a = b := by
  cases a
  cases b
  exact congrArg String.mk h

theorem str_append_assoc (a b c : String) : (a ++ b) ++ c = a ++ (b ++ c) := by
  apply str_eq_of_data
  simp [str_data_append]

theorem str_empty_append (a : String) : "" ++ a = a := by
  apply str_eq_of_data
  simp [str_data_append]

theorem str_append_empty (a : String) : a ++ "" = a := by
  apply str_eq_of_data
  simp [str_data_append]

theorem data_empty : ("" : String).data = [] := rfl

theorem data_nl : ("\n" : String).data = ['\n'] := rfl

theorem mk_data (s : String) : String.mk s.data = s := by
  cases s
  rfl

/-! ### The card formatter: template shape and line structure -/

/-- The sequence of `writeln!` appends in `make_vcard` produces the fixed
ten-line template with the six attributes inserted literally. -/
theorem make_vcard_template (f l t m e nt : String) :
    make_vcard f l t m e nt =
      "BEGIN:VCARD" ++ "\n" ++ "VERSION:2.1" ++ "\n" ++
      "N:" ++ l ++ ";" ++ f ++ "\n" ++
      "FN:" ++ f ++ " " ++ l ++ "\n" ++
      "EMAIL;PREF;INTERNET:" ++ e ++ "\n" ++
      "TEL;HOME;VOICE:" ++ t ++ "\n" ++
      "TEL;HOME;VOICE:" ++ m ++ "\n" ++
      "NOTE:" ++ nt ++ "\n" ++
      "REV:1" ++ "\n" ++ "END:VCARD" ++ "\n" := by
  apply str_eq_of_data
  simp [make_vcard, str_data_append]

/-- Splitting a newline-joined block of newline-free lines recovers the
lines (with the residue of the final terminator). -/
theorem splitOnChar_foldr_lines (ls : List (List Char))
    (h : ∀ x ∈ ls, '\n' ∉ x) :
    splitOnChar '\n' (ls.foldr (fun x acc => x ++ '\n' :: acc) []) = ls ++ [[]] := by
  induction ls with
  | nil => rfl
  | cons x xs ih =>
    have hx : '\n' ∉ x := h x (List.mem_cons_self x xs)
    have hxs : ∀ y ∈ xs, '\n' ∉ y := fun y hy => h y (List.mem_cons_of_mem x hy)
    show splitOnChar '\n' (x ++ '\n' :: xs.foldr (fun x acc => x ++ '\n' :: acc) []) =
      (x :: xs) ++ [[]]
    rw [splitOnChar_append, splitOnChar_eq_single '\n' x hx, ih hxs]
    rfl

/-- The character data of a card is the fold of its ten lines, each closed
by a newline. -/
theorem make_vcard_data_foldr (f l t m e nt : String) :
    (make_vcard f l t m e nt).data =
      (["BEGIN:VCARD".data, "VERSION:2.1".data,
        ("N:" ++ l ++ ";" ++ f).data, ("FN:" ++ f ++ " " ++ l).data,
        ("EMAIL;PREF;INTERNET:" ++ e).data,
        ("TEL;HOME;VOICE:" ++ t).data, ("TEL;HOME;VOICE:" ++ m).data,
        ("NOTE:" ++ nt).data, "REV:1".data, "END:VCARD".data]).foldr
        (fun x acc => x ++ '\n' :: acc) [] := by
  simp [make_vcard, str_data_append, data_nl]

/-- The rendered lines of a card built from newline-free attributes. -/
theorem make_vcard_lines (f l t m e nt : String)
    (hf : '\n' ∉ f.data) (hl : '\n' ∉ l.data) (ht : '\n' ∉ t.data)
    (hm : '\n' ∉ m.data) (he : '\n' ∉ e.data) (hnt : '\n' ∉ nt.data) :
    splitOnChar '\n' (make_vcard f l t m e nt).data =
      ["BEGIN:VCARD".data, "VERSION:2.1".data,
        ("N:" ++ l ++ ";" ++ f).data, ("FN:" ++ f ++ " " ++ l).data,
        ("EMAIL;PREF;INTERNET:" ++ e).data,
        ("TEL;HOME;VOICE:" ++ t).data, ("TEL;HOME;VOICE:" ++ m).data,
        ("NOTE:" ++ nt).data, "REV:1".data, "END:VCARD".data] ++ [[]] := by
  rw [make_vcard_data_foldr]
  apply splitOnChar_foldr_lines
  intro x hx
  simp only [List.mem_cons, List.not_mem_nil, or_false] at hx
  rcases hx with h | h | h | h | h | h | h | h | h | h <;> subst h <;>
    simp [str_data_append, List.mem_append] <;>
    first
      | exact ⟨hl, hf⟩
      | exact ⟨hf, hl⟩
      | exact he
      | exact ht
      | exact hm
      | exact hnt

/-! ### The record mapper -/

/-- On any non-empty field list the mapper succeeds, with fields 0–5 (or the
empty string) as the card attributes. -/
theorem extract_vcard_of_ne_nil (d : List String) (h : d ≠ []) :
    extract_vcard_data d = .ok (make_vcard (d.getD 0 "") (d.getD 1 "")
      (d.getD 2 "") (d.getD 3 "") (d.getD 4 "") (d.getD 5 "")) := by
  cases d with
  | nil => exact absurd rfl h
  | cons a as => rfl

/-- C1: the record mapper is claimed never to fail.  In fact it fails with
an invalid-input error exactly on the empty field sequence; on every
non-empty sequence it succeeds and the six components are the fields at
positions 0 through 5 when present and the empty string otherwise. -/
theorem C1_record_mapper :
    extract_vcard_data [] = .error "Invalid input, needs at least one field for first name" ∧
    ∀ d : List String, d ≠ [] →
      extract_vcard_data d = .ok (make_vcard (d.getD 0 "") (d.getD 1 "")
        (d.getD 2 "") (d.getD 3 "") (d.getD 4 "") (d.getD 5 "")) :=
  ⟨rfl, extract_vcard_of_ne_nil⟩

/-- C1 witness: the amended mapper contract at a concrete two-field row. -/
theorem C1_record_mapper_witness :
    extract_vcard_data ["John", "Smith"] =
      .ok (make_vcard "John" "Smith" "" "" "" "") := by
  have h := C1_record_mapper.2 ["John", "Smith"] (by simp)
  simpa using h

/-- C1 counterexample: the mapper fails on the empty field sequence, so it
does not hold that it never fails. -/
theorem C1_record_mapper_cex : exceptOk (extract_vcard_data []) = false := rfl

/-- C3: the card formatter always succeeds and produces the fixed ten-line
template, each attribute inserted literally and unescaped; when the
attributes are newline-free the block consists of exactly those ten lines. -/
theorem C3_card_formatter (f l t m e nt : String) :
    (make_vcard f l t m e nt =
      "BEGIN:VCARD" ++ "\n" ++ "VERSION:2.1" ++ "\n" ++
      "N:" ++ l ++ ";" ++ f ++ "\n" ++
      "FN:" ++ f ++ " " ++ l ++ "\n" ++
      "EMAIL;PREF;INTERNET:" ++ e ++ "\n" ++
      "TEL;HOME;VOICE:" ++ t ++ "\n" ++
      "TEL;HOME;VOICE:" ++ m ++ "\n" ++
      "NOTE:" ++ nt ++ "\n" ++
      "REV:1" ++ "\n" ++ "END:VCARD" ++ "\n") ∧
    ('\n' ∉ f.data → '\n' ∉ l.data → '\n' ∉ t.data → '\n' ∉ m.data →
      '\n' ∉ e.data → '\n' ∉ nt.data →
      splitOnChar '\n' (make_vcard f l t m e nt).data =
        ["BEGIN:VCARD".data, "VERSION:2.1".data,
          ("N:" ++ l ++ ";" ++ f).data, ("FN:" ++ f ++ " " ++ l).data,
          ("EMAIL;PREF;INTERNET:" ++ e).data,
          ("TEL;HOME;VOICE:" ++ t).data, ("TEL;HOME;VOICE:" ++ m).data,
          ("NOTE:" ++ nt).data, "REV:1".data, "END:VCARD".data] ++ [[]]) :=
  ⟨make_vcard_template f l t m e nt,
   fun hf hl ht hm he hnt => make_vcard_lines f l t m e nt hf hl ht hm he hnt⟩

/-- C3 witness: the ten rendered lines of a concrete card. -/
theorem C3_card_formatter_witness :
    splitOnChar '\n' (make_vcard "John" "Smith" "" "0612345678"
        "john.smith@example.com" "Friend from work").data =
      ["BEGIN:VCARD".data, "VERSION:2.1".data,
        ("N:" ++ "Smith" ++ ";" ++ "John").data,
        ("FN:" ++ "John" ++ " " ++ "Smith").data,
        ("EMAIL;PREF;INTERNET:" ++ "john.smith@example.com").data,
        ("TEL;HOME;VOICE:" ++ "").data, ("TEL;HOME;VOICE:" ++ "0612345678").data,
        ("NOTE:" ++ "Friend from work").data, "REV:1".data, "END:VCARD".data] ++ [[]] :=
  (C3_card_formatter "John" "Smith" "" "0612345678" "john.smith@example.com"
    "Friend from work").2 (by decide) (by decide) (by decide) (by decide)
    (by decide) (by decide)

/-- C6: on a row of at least six fields the card is built from fields 0–5 in
order, and the result does not depend on the fields at index 6 and beyond. -/
theorem C6_extra_fields (d : List String) (h : 6 ≤ d.length) :
    extract_vcard_data d = .ok (make_vcard (d.getD 0 "") (d.getD 1 "")
      (d.getD 2 "") (d.getD 3 "") (d.getD 4 "") (d.getD 5 "")) ∧
    extract_vcard_data d = extract_vcard_data (d.take 6) := by
  rcases d with _ | ⟨a0, d⟩
  · simp at h
  rcases d with _ | ⟨a1, d⟩
  · simp at h
  rcases d with _ | ⟨a2, d⟩
  · simp at h
  rcases d with _ | ⟨a3, d⟩
  · simp at h
  rcases d with _ | ⟨a4, d⟩
  · simp at h
  rcases d with _ | ⟨a5, d⟩
  · simp at h
  exact ⟨rfl, rfl⟩

/-- C6 witness: a seven-field row at concrete values. -/
theorem C6_extra_fields_witness :
    extract_vcard_data ["a", "b", "c", "d", "e", "f", "EXTRA"] =
      .ok (make_vcard "a" "b" "c" "d" "e" "f") ∧
    extract_vcard_data ["a", "b", "c", "d", "e", "f", "EXTRA"] =
      extract_vcard_data ["a", "b", "c", "d", "e", "f"] := by
  have h := C6_extra_fields ["a", "b", "c", "d", "e", "f", "EXTRA"] (by simp)
  exact ⟨by simpa using h.1, by simpa using h.2⟩

/-- C7: on rows of one to five fields the missing trailing fields render as
the empty string, and in particular the email line of a 2-field row, and
the email and note lines of a 4-field row, have nothing after their colon
(for newline-free fields the rendered line is exactly the bare tag). -/
theorem C7_missing_fields (f l t m e : String) :
    extract_vcard_data [f] = .ok (make_vcard f "" "" "" "" "") ∧
    extract_vcard_data [f, l] = .ok (make_vcard f l "" "" "" "") ∧
    extract_vcard_data [f, l, t] = .ok (make_vcard f l t "" "" "") ∧
    extract_vcard_data [f, l, t, m] = .ok (make_vcard f l t m "" "") ∧
    extract_vcard_data [f, l, t, m, e] = .ok (make_vcard f l t m e "") ∧
    ('\n' ∉ f.data → '\n' ∉ l.data →
      (splitOnChar '\n' (make_vcard f l "" "" "" "").data).getD 4 [] =
        "EMAIL;PREF;INTERNET:".data) ∧
    ('\n' ∉ f.data → '\n' ∉ l.data → '\n' ∉ t.data → '\n' ∉ m.data →
      (splitOnChar '\n' (make_vcard f l t m "" "").data).getD 4 [] =
        "EMAIL;PREF;INTERNET:".data ∧
      (splitOnChar '\n' (make_vcard f l t m "" "").data).getD 7 [] =
        "NOTE:".data) := by
  refine ⟨rfl, rfl, rfl, rfl, rfl, ?_, ?_⟩
  · intro hf hl
    rw [make_vcard_lines f l "" "" "" "" hf hl (by decide) (by decide) (by decide) (by decide)]
    simp [str_append_empty]
  · intro hf hl ht hm
    rw [make_vcard_lines f l t m "" "" hf hl ht hm (by decide) (by decide)]
    constructor <;> simp [str_append_empty]

/-- C7 witness: the concrete 4-field row from the specification. -/
theorem C7_missing_fields_witness :
    extract_vcard_data ["Bob", "Brown", "0112233445", "0611223344"] =
      .ok (make_vcard "Bob" "Brown" "0112233445" "0611223344" "" "") ∧
    (splitOnChar '\n' (make_vcard "Bob" "Brown" "0112233445" "0611223344" "" "").data).getD 4 [] =
      "EMAIL;PREF;INTERNET:".data ∧
    (splitOnChar '\n' (make_vcard "Bob" "Brown" "0112233445" "0611223344" "" "").data).getD 7 [] =
      "NOTE:".data := by
  have h := C7_missing_fields "Bob" "Brown" "0112233445" "0611223344" ""
  have h2 := h.2.2.2.2.2.2 (by decide) (by decide) (by decide) (by decide)
  exact ⟨h.2.2.2.1, h2.1, h2.2⟩

/-! ### The line reader -/

/-- The reader's skip condition (a single empty field after the split) holds
exactly for the fully empty line. -/
theorem skip_condition_iff (line : String) :
    (((splitOnChar ',' line.data).map String.mk).length = 1 ∧
      ((splitOnChar ',' line.data).map String.mk).getD 0 "" = "") ↔ line = "" := by
  constructor
  · rintro ⟨h1, h2⟩
    rcases hr : splitOnChar ',' line.data with _ | ⟨x, tl⟩
    · exact absurd hr (splitOnChar_ne_nil ',' line.data)
    · rw [hr] at h1 h2
      rcases tl with _ | ⟨y, ts⟩
      · have hj := joinWithChar_splitOnChar ',' line.data
        rw [hr] at hj
        have hx : x = line.data := hj
        have hmk : String.mk x = "" := by simpa [List.getD] using h2
        have hxe : x = [] := congrArg String.data hmk
        apply str_eq_of_data
        rw [← hx, hxe]
      · simp at h1
  · rintro rfl
    decide

/-- After the header index, the reader loop is the order-preserving
filter-and-split of the remaining lines. -/
theorem read_csv_go_succ (ls : List String) (i : Nat) :
    read_csv_go (i + 1) ls = ls.filterMap (fun line =>
      if line = "" then none
      else some ((splitOnChar ',' line.data).map String.mk)) := by
  induction ls generalizing i with
  | nil => rfl
  | cons line rest ih =>
    rw [read_csv_go]
    rw [if_neg (Nat.succ_ne_zero i)]
    by_cases hline : line = ""
    · rw [if_pos ((skip_condition_iff line).mpr hline)]
      rw [ih (i + 1)]
      simp [hline]
    · rw [if_neg (fun hc => hline ((skip_condition_iff line).mp hc))]
      rw [ih (i + 1)]
      simp [hline]

/-- The reader equals its specification: drop the header line, split every
later line on the comma, skip fully empty lines, keep the order. -/
theorem reader_eq_spec (contents : String) :
    read_csv_lines contents = LineReaderSpec contents := by
  unfold read_csv_lines LineReaderSpec
  cases hl : linesOf contents with
  | nil => rfl
  | cons l0 rest =>
    rw [read_csv_go, if_pos rfl, read_csv_go_succ rest 0]
    rfl

/-- C5: the line reader discards the first line unconditionally, splits each
later line on the literal comma, skips every fully empty line, and returns
the retained rows in order. -/
theorem C5_line_reader (contents : String) :
    read_csv_lines contents = LineReaderSpec contents :=
  reader_eq_spec contents

/-- Every row the reader produces is non-empty: splitting yields at least
one piece, and retained single-piece rows are non-empty strings. -/
theorem read_csv_go_rows_ne_nil (ls : List String) :
    ∀ (i : Nat) (row : List String), row ∈ read_csv_go i ls → row ≠ [] := by
  induction ls with
  | nil =>
    intro i row h
    simp [read_csv_go] at h
  | cons line rest ih =>
    intro i row h
    rw [read_csv_go] at h
    by_cases hi : i = 0
    · rw [if_pos hi] at h
      exact ih (i + 1) row h
    · rw [if_neg hi] at h
      by_cases hc : ((splitOnChar ',' line.data).map String.mk).length = 1 ∧
          ((splitOnChar ',' line.data).map String.mk).getD 0 "" = ""
      · rw [if_pos hc] at h
        exact ih (i + 1) row h
      · rw [if_neg hc] at h
        rcases List.mem_cons.mp h with h | h
        · subst h
          simp only [ne_eq, List.map_eq_nil_iff]
          exact splitOnChar_ne_nil ',' line.data
        · exact ih (i + 1) row h

/-! ### Collection of the per-row results -/

/-- Collection succeeds when every row is non-empty. -/
theorem collect_results_ok (rows : List (List String))
    (h : ∀ row ∈ rows, row ≠ []) : exceptOk (collect_results rows) = true := by
  induction rows with
  | nil => rfl
  | cons row rest ih =>
    have h1 : row ≠ [] := h row (List.mem_cons_self row rest)
    have h2 := ih (fun r hr => h r (List.mem_cons_of_mem row hr))
    cases hc : collect_results rest with
    | error err => rw [hc] at h2; simp [exceptOk] at h2
    | ok cards =>
      simp [collect_results, extract_vcard_of_ne_nil row h1, hc, exceptOk]

/-- A successful collection is the pointwise in-order image of the rows. -/
theorem collect_results_forall (rows : List (List String)) (cards : List String)
    (h : collect_results rows = .ok cards) :
    List.Forall₂ (fun row card => extract_vcard_data row = .ok card) rows cards := by
  induction rows generalizing cards with
  | nil =>
    rw [collect_results] at h
    injection h with h
    subst h
    exact List.Forall₂.nil
  | cons row rest ih =>
    cases he : extract_vcard_data row with
    | error err => simp [collect_results, he] at h
    | ok card =>
      cases hc : collect_results rest with
      | error err => simp [collect_results, he, hc] at h
      | ok cards2 =>
        have hcc : card :: cards2 = cards := by
          simpa [collect_results, he, hc] using h
        subst hcc
        exact List.Forall₂.cons he (ih cards2 hc)

/-- Every collected card is the image of some row. -/
theorem collect_results_mem (rows : List (List String)) (cards : List String)
    (card : String) (h : collect_results rows = .ok cards) (hm : card ∈ cards) :
    ∃ row, extract_vcard_data row = .ok card := by
  induction rows generalizing cards with
  | nil =>
    rw [collect_results] at h
    injection h with h
    subst h
    simp at hm
  | cons row rest ih =>
    cases he : extract_vcard_data row with
    | error err => simp [collect_results, he] at h
    | ok c0 =>
      cases hc : collect_results rest with
      | error err => simp [collect_results, he, hc] at h
      | ok cards2 =>
        have hcc : c0 :: cards2 = cards := by
          simpa [collect_results, he, hc] using h
        subst hcc
        rcases List.mem_cons.mp hm with hm | hm
        · exact ⟨row, hm ▸ he⟩
        · exact ih cards2 hc hm

/-- Every card produced by the mapper is delimited by the `BEGIN:VCARD` line
and ends with the `END:VCARD` line followed by its own newline. -/
theorem extract_card_shape (row : List String) (card : String)
    (h : extract_vcard_data row = .ok card) :
    ∃ mid : String, card = ("BEGIN:VCARD" ++ "\n") ++ mid ++ ("END:VCARD" ++ "\n") := by
  cases row with
  | nil => simp [extract_vcard_data] at h
  | cons a as =>
    rw [extract_vcard_of_ne_nil (a :: as) (List.cons_ne_nil a as)] at h
    injection h with h
    refine ⟨"VERSION:2.1" ++ "\n" ++
      "N:" ++ ((a :: as).getD 1 "") ++ ";" ++ ((a :: as).getD 0 "") ++ "\n" ++
      "FN:" ++ ((a :: as).getD 0 "") ++ " " ++ ((a :: as).getD 1 "") ++ "\n" ++
      "EMAIL;PREF;INTERNET:" ++ ((a :: as).getD 4 "") ++ "\n" ++
      "TEL;HOME;VOICE:" ++ ((a :: as).getD 2 "") ++ "\n" ++
      "TEL;HOME;VOICE:" ++ ((a :: as).getD 3 "") ++ "\n" ++
      "NOTE:" ++ ((a :: as).getD 5 "") ++ "\n" ++ "REV:1" ++ "\n", ?_⟩
    rw [← h, make_vcard_template]
    apply str_eq_of_data
    simp only [str_data_append, List.append_assoc]

/-- C2 counterexample: on a two-row input, the written text contains an
empty line between one block's `END:VCARD` line and the next block's
`BEGIN:VCARD` line, because each block already ends with a newline before
the single-newline separator is added. -/
theorem C2_pipeline_join_cex :
    containsSub ("END:VCARD" ++ "\n" ++ "\n" ++ "BEGIN:VCARD").data
      ((process_csv_text "h\na\nb").toOption.getD "").data = true := by decide

/-- C2 (amended): the pipeline output is the card blocks joined with exactly
one newline between consecutive blocks; since every block itself ends with
a newline after `END:VCARD`, an empty line separates consecutive blocks in
the joined text. -/
theorem C2_pipeline_join (contents : String) (cards : List String)
    (h : collect_results (read_csv_lines contents) = .ok cards) :
    process_csv_text contents = .ok (join_with "\n" cards) ∧
    ∀ card ∈ cards, ∃ mid : String,
      card = ("BEGIN:VCARD" ++ "\n") ++ mid ++ ("END:VCARD" ++ "\n") := by
  constructor
  · simp [process_csv_text, h]
  · intro card hm
    obtain ⟨row, hrow⟩ := collect_results_mem _ _ _ h hm
    exact extract_card_shape row card hrow

/-- C2 witness: the amended join property at a concrete two-row input. -/
theorem C2_pipeline_join_witness :
    process_csv_text "h\na\nb" =
      .ok (join_with "\n" [make_vcard "a" "" "" "" "" "", make_vcard "b" "" "" "" "" ""]) :=
  (C2_pipeline_join "h\na\nb"
    [make_vcard "a" "" "" "" "" "", make_vcard "b" "" "" "" "" ""] rfl).1

/-- C8: row ordering is preserved end to end — the reader is the in-order
filter of the source lines, the successful collection is the pointwise
in-order image of the rows (no reordering, duplication or deduplication),
and the output is the join of exactly those cards. -/
theorem C8_row_order (contents : String) (cards : List String)
    (h : collect_results (read_csv_lines contents) = .ok cards) :
    read_csv_lines contents = LineReaderSpec contents ∧
    List.Forall₂ (fun row card => extract_vcard_data row = .ok card)
      (read_csv_lines contents) cards ∧
    process_csv_text contents = .ok (join_with "\n" cards) :=
  ⟨reader_eq_spec contents, collect_results_forall _ _ h,
    by simp [process_csv_text, h]⟩

/-- C8 witness: order preservation at a concrete two-row input. -/
theorem C8_row_order_witness :
    read_csv_lines "h\nJohn,Smith\nJane,Doe" = LineReaderSpec "h\nJohn,Smith\nJane,Doe" ∧
    List.Forall₂ (fun row card => extract_vcard_data row = .ok card)
      (read_csv_lines "h\nJohn,Smith\nJane,Doe")
      [make_vcard "John" "Smith" "" "" "" "", make_vcard "Jane" "Doe" "" "" "" ""] ∧
    process_csv_text "h\nJohn,Smith\nJane,Doe" =
      .ok (join_with "\n"
        [make_vcard "John" "Smith" "" "" "" "", make_vcard "Jane" "Doe" "" "" "" ""]) :=
  C8_row_order "h\nJohn,Smith\nJane,Doe"
    [make_vcard "John" "Smith" "" "" "" "", make_vcard "Jane" "Doe" "" "" "" ""] rfl

/-- C10: every row the line reader produces has at least one field, and
therefore the mapping stage never fails inside the pipeline — the
invalid-input branch of the mapper is unreachable there. -/
theorem C10_mapper_never_fails (contents : String) :
    (read_csv_lines contents).all (fun row => !row.isEmpty) = true ∧
    exceptOk (collect_results (read_csv_lines contents)) = true := by
  have hne : ∀ row ∈ read_csv_lines contents, row ≠ [] :=
    fun row hr => read_csv_go_rows_ne_nil (linesOf contents) 0 row hr
  constructor
  · rw [List.all_eq_true]
    intro row hr
    have := hne row hr
    cases row with
    | nil => exact absurd rfl this
    | cons a as => rfl
  · exact collect_results_ok _ hne

/-! ### The path deriver -/

theorem data_dot : ("." : String).data = ['.'] := rfl

theorem data_slash : ("/" : String).data = ['/'] := rfl

theorem lastCompAux_concat (R : List (List Char)) (s : List Char)
    (h1 : s ≠ []) (h2 : s ≠ ['.']) :
    lastCompAux (R ++ [s]) = some (R, s) := by
  induction R with
  | nil => simp [lastCompAux, h1, h2]
  | cons q R' ih => simp [lastCompAux, ih]

theorem lastCompOf_concat (X : List (List Char)) (s : List Char)
    (h1 : s ≠ []) (h2 : s ≠ ['.']) :
    lastCompOf (X ++ [s]) = some (X, s) := by
  cases X with
  | nil => simp [lastCompOf, lastCompAux, h1]
  | cons q X' => simp [lastCompOf, lastCompAux_concat X' s h1 h2]

/-- Evaluation of `setExtension` once the last component is known. -/
theorem setExtension_eq (q ext : String) (X : List (List Char)) (s' : List Char)
    (h : lastCompOf (piecesOf q) = some (X, s'))
    (h23 : ¬(s' = ['.', '.'] ∨ s' = ['.'])) (h6 : ext ≠ "") :
    setExtension q ext =
      String.mk (joinWithChar '/' (X ++ [stemChars s' ++ '.' :: ext.data])) := by
  unfold setExtension
  rw [h]
  simp [h23, h6]

/-- `set_extension` after pushing a well-behaved stem: the extension is
appended after a dot. -/
theorem setExtension_push (b s ext : String) (h1 : s ≠ "") (h2 : s ≠ ".")
    (h3 : s ≠ "..") (h4 : '/' ∉ s.data) (h5 : stemChars s.data = s.data)
    (h6 : ext ≠ "") :
    setExtension (pushPath b s) ext = pushPath b s ++ "." ++ ext := by
  have hd1 : s.data ≠ [] := fun he => h1 (str_eq_of_data s "" (by rw [he]))
  have hd2 : s.data ≠ ['.'] := fun he => h2 (str_eq_of_data s "." (by rw [he]))
  have hd3 : s.data ≠ ['.', '.'] := fun he => h3 (str_eq_of_data s ".." (by rw [he]))
  have h23 : ¬(s.data = ['.', '.'] ∨ s.data = ['.']) := fun hor => hor.elim hd3 hd2
  by_cases hb : b = ""
  · subst hb
    rw [show pushPath "" s = s from rfl]
    have hp : piecesOf s = [] ++ [s.data] := by
      simp [piecesOf, splitOnChar_eq_single '/' s.data h4]
    have hlc : lastCompOf (piecesOf s) = some ([], s.data) := by
      rw [hp]
      exact lastCompOf_concat [] s.data hd1 hd2
    rw [setExtension_eq s ext [] s.data hlc h23 h6, h5]
    apply str_eq_of_data
    simp [str_data_append, data_dot, joinWithChar]
  · by_cases hsl : b.data.getLast? = some '/'
    · have hpush : pushPath b s = b ++ s := by simp [pushPath, hb, hsl]
      rw [hpush]
      rcases List.eq_nil_or_concat b.data with hBnil | ⟨B', lastc, hB⟩
      · exact absurd (str_eq_of_data b "" (by rw [hBnil])) hb
      · rw [List.concat_eq_append] at hB
        have hlc' : lastc = '/' := by
          rw [hB, List.getLast?_concat] at hsl
          exact Option.some.inj hsl
        subst hlc'
        have hdata : (b ++ s).data = B' ++ '/' :: s.data := by
          rw [str_data_append, hB]
          simp
        have hp : piecesOf (b ++ s) = splitOnChar '/' B' ++ [s.data] := by
          rw [piecesOf, hdata, splitOnChar_append, splitOnChar_eq_single '/' s.data h4]
        have hlc : lastCompOf (piecesOf (b ++ s)) =
            some (splitOnChar '/' B', s.data) := by
          rw [hp]
          exact lastCompOf_concat _ s.data hd1 hd2
        rw [setExtension_eq (b ++ s) ext _ s.data hlc h23 h6, h5]
        apply str_eq_of_data
        show joinWithChar '/' (splitOnChar '/' B' ++ [s.data ++ '.' :: ext.data]) =
          ((b ++ s) ++ "." ++ ext).data
        rw [joinWithChar_last_append '/' (splitOnChar '/' B') s.data ('.' :: ext.data),
          joinWithChar_concat '/' (splitOnChar '/' B') s.data (splitOnChar_ne_nil '/' B'),
          joinWithChar_splitOnChar '/' B']
        simp [str_data_append, data_dot, hB]
    · have hpush : pushPath b s = b ++ "/" ++ s := by simp [pushPath, hb, hsl]
      rw [hpush]
      have hdata : (b ++ "/" ++ s).data = b.data ++ '/' :: s.data := by
        simp [str_data_append, data_slash]
      have hp : piecesOf (b ++ "/" ++ s) = splitOnChar '/' b.data ++ [s.data] := by
        rw [piecesOf, hdata, splitOnChar_append, splitOnChar_eq_single '/' s.data h4]
      have hlc : lastCompOf (piecesOf (b ++ "/" ++ s)) =
          some (splitOnChar '/' b.data, s.data) := by
        rw [hp]
        exact lastCompOf_concat _ s.data hd1 hd2
      rw [setExtension_eq (b ++ "/" ++ s) ext _ s.data hlc h23 h6, h5]
      apply str_eq_of_data
      show joinWithChar '/' (splitOnChar '/' b.data ++ [s.data ++ '.' :: ext.data]) =
        ((b ++ "/" ++ s) ++ "." ++ ext).data
      rw [joinWithChar_last_append '/' (splitOnChar '/' b.data) s.data ('.' :: ext.data),
        joinWithChar_concat '/' (splitOnChar '/' b.data) s.data (splitOnChar_ne_nil '/' b.data),
        joinWithChar_splitOnChar '/' b.data]
      simp [str_data_append, data_dot, data_slash]

/-- C4 counterexample: a stem that itself contains a dot.  The code returns
`contacts.vcf` for input `contacts.backup.csv`, not the claimed
stem + `.` + extension, which would be `contacts.backup.vcf`. -/
theorem C4_path_deriver_cex :
    build_output_path "contacts.backup.csv" "vcf" = .ok "contacts.vcf" ∧
    ("contacts.vcf" : String) ≠ "contacts.backup" ++ "." ++ "vcf" := by
  constructor
  · rfl
  · decide

/-- C4 (amended): the path deriver fails exactly when the input path has no
file-name stem; otherwise it pushes the stem onto the parent directory
(defaulting to `"."`) and sets the target extension — which appends
`.` + extension when the stem has no inner extension, but replaces the
stem's own inner extension when it has one. -/
theorem C4_path_deriver (p ext : String) :
    (exceptOk (build_output_path p ext) = false ↔ fileStem p = none) ∧
    (∀ s : String, fileStem p = some s → s ≠ "" → s ≠ "." → s ≠ ".." →
      '/' ∉ s.data → stemChars s.data = s.data → ext ≠ "" →
      build_output_path p ext =
        .ok (pushPath ((parentOf p).getD ".") s ++ "." ++ ext)) := by
  constructor
  · cases hfs : fileStem p with
    | none => simp [build_output_path, hfs, exceptOk]
    | some s => simp [build_output_path, hfs, exceptOk]
  · intro s hs h1 h2 h3 h4 h5 h6
    have hb : build_output_path p ext =
        .ok (setExtension (pushPath ((parentOf p).getD ".") s) ext) := by
      unfold build_output_path
      rw [hs]
    rw [hb, setExtension_push ((parentOf p).getD ".") s ext h1 h2 h3 h4 h5 h6]

/-- C4 witness: the two path derivations given in the specification, one
with a parent directory and one without. -/
theorem C4_path_deriver_witness :
    build_output_path "contacts/my_contacts.csv" "vcf" = .ok "contacts/my_contacts.vcf" ∧
    build_output_path "my_contacts.csv" "vcf" = .ok "my_contacts.vcf" := by
  constructor
  · have h := (C4_path_deriver "contacts/my_contacts.csv" "vcf").2 "my_contacts"
      rfl (by decide) (by decide) (by decide) (by decide) (by decide) (by decide)
    rw [h]
    rfl
  · have h := (C4_path_deriver "my_contacts.csv" "vcf").2 "my_contacts"
      rfl (by decide) (by decide) (by decide) (by decide) (by decide) (by decide)
    rw [h]
    rfl

/-! ### The writer and the full pipeline state -/

/-- Full evaluation of the pipeline when the run succeeds. -/
theorem process_csv_eval (fname c out : String) (fs : FileSys) (cards : List String)
    (h1 : fs fname = some c) (hout : build_output_path fname "vcf" = .ok out)
    (hc : collect_results (read_csv_lines c) = .ok cards) :
    process_csv fname fs = .ok (write_file out (join_with "\n" cards) fs) := by
  unfold process_csv read_csv_file
  simp only [h1, hout, hc]

/-- C9: the pipeline is deterministic in the input contents, and the writer
truncates — after two runs on file states holding the same input contents,
the derived output file holds the same written text, regardless of the
pre-existing contents of the output file in either state. -/
theorem C9_truncating_writer (fname c out : String) (fs1 fs2 : FileSys)
    (g1 g2 : FileSys)
    (h1 : fs1 fname = some c) (h2 : fs2 fname = some c)
    (hout : build_output_path fname "vcf" = .ok out)
    (hg1 : process_csv fname fs1 = .ok g1) (hg2 : process_csv fname fs2 = .ok g2) :
    g1 out = g2 out ∧ ∃ text : String, g1 out = some text := by
  cases hcol : collect_results (read_csv_lines c) with
  | error e =>
    have hrun : process_csv fname fs1 = .error e := by
      unfold process_csv read_csv_file
      simp only [h1, hout, hcol]
    rw [hrun] at hg1
    exact absurd hg1 (by simp)
  | ok cards =>
    have e1 := process_csv_eval fname c out fs1 cards h1 hout hcol
    have e2 := process_csv_eval fname c out fs2 cards h2 hout hcol
    rw [e1] at hg1
    rw [e2] at hg2
    injection hg1 with hg1
    injection hg2 with hg2
    subst hg1
    subst hg2
    constructor
    · simp [write_file]
    · exact ⟨join_with "\n" cards, by simp [write_file]⟩

/-- C9 witness: two file states with the same input file but different
pre-existing output files lead to the same written output. -/
theorem C9_truncating_writer_witness :
    write_file "c.vcf" (join_with "\n" [make_vcard "a" "" "" "" "" ""])
        (fun p => if p = "c.csv" then some "h\na" else none) "c.vcf" =
      write_file "c.vcf" (join_with "\n" [make_vcard "a" "" "" "" "" ""])
        (fun p => if p = "c.csv" then some "h\na" else some "OLD") "c.vcf" ∧
    ∃ text : String,
      write_file "c.vcf" (join_with "\n" [make_vcard "a" "" "" "" "" ""])
        (fun p => if p = "c.csv" then some "h\na" else none) "c.vcf" = some text :=
  C9_truncating_writer "c.csv" "h\na" "c.vcf"
    (fun p => if p = "c.csv" then some "h\na" else none)
    (fun p => if p = "c.csv" then some "h\na" else some "OLD")
    (write_file "c.vcf" (join_with "\n" [make_vcard "a" "" "" "" "" ""])
      (fun p => if p = "c.csv" then some "h\na" else none))
    (write_file "c.vcf" (join_with "\n" [make_vcard "a" "" "" "" "" ""])
      (fun p => if p = "c.csv" then some "h\na" else some "OLD"))
    rfl rfl rfl rfl rfl

end VCardGen
